import Mathlib

/-!
Verification of the bidirectional-recurrence encoder (`BiRecurrence`) and the
supporting notebook glue from `Tutorials/CNTK_202_Language_Understanding.ipynb`.

Vectors are modelled as lists of rationals; a recurrent cell is a function
from (state, input vector) to (new state, output vector), generic in the
state type.
-/

/-- A feature vector, modelled as a list of rationals. -/
abbrev Vec := List ℚ

/-- A recurrent cell: maps (previous state, current input) to
(new state, output).  The LSTM used in the notebook is one instance;
its gating arithmetic is an external primitive. -/
abbrev Cell (σ : Type) := σ → Vec → σ × Vec

/-- Modelled from the spec: `forward_scan` of `Recurrence(cell)` (the CNTK
layer is not under `src/`).  It initialises `state_f = initial_state` and,
for `t = 0 .. n-1` in increasing order, computes
`state_f, out_f[t] = cell(state_f, x[t])`.  Returns the final state and the
output sequence. -/
def forward_scan_aux {σ : Type} (cell : Cell σ) (s : σ) : List Vec → σ × List Vec
  | [] => (s, [])
  | x :: xs =>
    let r := cell s x
    let rest := forward_scan_aux cell r.1 xs
    (rest.1, r.2 :: rest.2)

/-- The output sequence of the forward scan. -/
def forward_scan {σ : Type} (cell : Cell σ) (s : σ) (xs : List Vec) : List Vec :=
  (forward_scan_aux cell s xs).2

/-- Modelled from the spec: `backward_scan` of `Recurrence(cell,
go_backwards=True)` (the CNTK layer is not under `src/`).  It initialises
`state_b = initial_state` and, for `t = n-1 .. 0` in decreasing order,
computes `state_b, out_b[t] = cell(state_b, x[t])`: the cell is applied in
reverse time order (the tail is processed before the head element) but each
result is stored back at its original index `t`. -/
def backward_scan_aux {σ : Type} (cell : Cell σ) (s : σ) : List Vec → σ × List Vec
  | [] => (s, [])
  | x :: xs =>
    let rest := backward_scan_aux cell s xs
    let r := cell rest.1 x
    (r.1, r.2 :: rest.2)

/-- The output sequence of the backward scan. -/
def backward_scan {σ : Type} (cell : Cell σ) (s : σ) (xs : List Vec) : List Vec :=
  (backward_scan_aux cell s xs).2

/-- `splice` along the feature axis at one position: concatenation. -/
def splice (a b : Vec) : Vec := a ++ b

/-- Embedding of `BiRecurrence(fwd, bwd)` from the notebook:
`F = Recurrence(fwd)`, `G = Recurrence(bwd, go_backwards=True)`,
result `= splice([F(x), G(x)])` — the per-position concatenation of the
forward scan of `fwd` and the backward scan of `bwd`, both started from the
same initial state. -/
def BiRecurrence {σ : Type} (fwd bwd : Cell σ) (s : σ) (x : List Vec) : List Vec :=
  List.zipWith splice (forward_scan fwd s x) (backward_scan bwd s x)

/-- The notebook's default initial state constant (`default_options(initial_state=0.1)`). -/
def initial_state : ℚ := 1/10

/-- The initial state broadcast to all `d` state dimensions. -/
def initialState (d : Nat) : Vec := List.replicate d initial_state

-- Model dimensions from the notebook.
def vocab_size : Nat := 943
def num_labels : Nat := 129
def emb_dim : Nat := 150
def hidden_dim : Nat := 300

-- Basic length lemmas.

theorem forward_scan_aux_length {σ : Type} (cell : Cell σ) (s : σ) (xs : List Vec) :
    (forward_scan_aux cell s xs).2.length = xs.length := by
  induction xs generalizing s with
  | nil => rfl
  | cons x xs ih => simp [forward_scan_aux, ih]

theorem forward_scan_length {σ : Type} (cell : Cell σ) (s : σ) (xs : List Vec) :
    (forward_scan cell s xs).length = xs.length :=
  forward_scan_aux_length cell s xs

theorem backward_scan_aux_length {σ : Type} (cell : Cell σ) (s : σ) (xs : List Vec) :
    (backward_scan_aux cell s xs).2.length = xs.length := by
  induction xs with
  | nil => rfl
  | cons x xs ih => simp [backward_scan_aux, ih]

theorem backward_scan_length {σ : Type} (cell : Cell σ) (s : σ) (xs : List Vec) :
    (backward_scan cell s xs).length = xs.length :=
  backward_scan_aux_length cell s xs

theorem BiRecurrence_length {σ : Type} (fwd bwd : Cell σ) (s : σ) (x : List Vec) :
    (BiRecurrence fwd bwd s x).length = x.length := by
  simp [BiRecurrence, forward_scan_length, backward_scan_length]

-- Relating the backward scan to a forward scan over the reversed sequence.

theorem forward_scan_aux_append {σ : Type} (cell : Cell σ) (s : σ) (as bs : List Vec) :
    forward_scan_aux cell s (as ++ bs) =
      ((forward_scan_aux cell (forward_scan_aux cell s as).1 bs).1,
       (forward_scan_aux cell s as).2 ++
         (forward_scan_aux cell (forward_scan_aux cell s as).1 bs).2) := by
  induction as generalizing s with
  | nil => simp [forward_scan_aux]
  | cons a as ih => simp [forward_scan_aux, ih]

theorem backward_scan_aux_eq_forward {σ : Type} (cell : Cell σ) (s : σ) (xs : List Vec) :
    backward_scan_aux cell s xs =
      ((forward_scan_aux cell s xs.reverse).1,
       (forward_scan_aux cell s xs.reverse).2.reverse) := by
  induction xs with
  | nil => rfl
  | cons x xs ih =>
    simp only [backward_scan_aux, ih, List.reverse_cons, forward_scan_aux_append,
      forward_scan_aux, List.reverse_append]
    simp

theorem backward_scan_eq_forward_reverse {σ : Type} (cell : Cell σ) (s : σ) (xs : List Vec) :
    backward_scan cell s xs = (forward_scan cell s xs.reverse).reverse := by
  simp [backward_scan, forward_scan, backward_scan_aux_eq_forward]

-- Example cells used by witnesses.

/-- A stateless cell adding 1 to each component. -/
def incCell : Cell Unit := fun _ v => ((), v.map (fun a => a + 1))

/-- A stateless cell doubling each component. -/
def dblCell : Cell Unit := fun _ v => ((), v.map (fun a => 2 * a))

/-- A stateful cell: remembers the previous input, outputs the running pair sum. -/
def sumCell : Cell Vec := fun s v => (v, [s.sum + v.sum])

/-- A stateful cell: remembers the previous input, outputs the running pair product. -/
def prodCell : Cell Vec := fun s v => (v, [s.sum * v.sum])

/-- C1: for every input sequence `x[0..n-1]` and cells `fwd`, `bwd`, the
output of `BiRecurrence(fwd, bwd)` at every position `t` is the
concatenation of the forward scan's output at `t` and the backward scan's
output at `t` (the backward scan applies `bwd` in decreasing time order,
storing each result at its original index `t`). -/
theorem C1_output_is_concat_of_scans {σ : Type} (fwd bwd : Cell σ) (s : σ)
    (x : List Vec) (t : Nat) (ht : t < x.length) :
    (BiRecurrence fwd bwd s x).get ⟨t, by rw [BiRecurrence_length]; exact ht⟩ =
      splice
        ((forward_scan fwd s x).get ⟨t, by rw [forward_scan_length]; exact ht⟩)
        ((backward_scan bwd s x).get ⟨t, by rw [backward_scan_length]; exact ht⟩) := by
  simp [BiRecurrence, List.get_eq_getElem, List.getElem_zipWith]

/-- Witness for C1 at the input `[[1], [2]]`, position `0`. -/
theorem C1_witness :
    (0 : Nat) < ([[(1 : ℚ)], [(2 : ℚ)]] : List Vec).length ∧
    (BiRecurrence incCell dblCell () [[(1 : ℚ)], [(2 : ℚ)]]).get
        ⟨0, by rw [BiRecurrence_length]; decide⟩ =
      splice
        ((forward_scan incCell () [[(1 : ℚ)], [(2 : ℚ)]]).get
          ⟨0, by rw [forward_scan_length]; decide⟩)
        ((backward_scan dblCell () [[(1 : ℚ)], [(2 : ℚ)]]).get
          ⟨0, by rw [backward_scan_length]; decide⟩) :=
  ⟨by decide, C1_output_is_concat_of_scans incCell dblCell () [[(1 : ℚ)], [(2 : ℚ)]] 0 (by decide)⟩

/-- C2: the encoder is position-preserving: the output sequence has exactly
the length of the input sequence, for every input and every pair of cells. -/
theorem C2_position_preserving {σ : Type} (fwd bwd : Cell σ) (s : σ) (x : List Vec) :
    (BiRecurrence fwd bwd s x).length = x.length :=
  BiRecurrence_length fwd bwd s x

/-- C5: the zero-length input produces an empty output sequence from the
encoder, and both scans produce empty outputs; no error is possible (the
functions are total). -/
theorem C5_empty_input {σ : Type} (fwd bwd : Cell σ) (s : σ) :
    BiRecurrence fwd bwd s [] = [] ∧
    forward_scan fwd s [] = [] ∧
    backward_scan bwd s [] = [] :=
  ⟨rfl, rfl, rfl⟩

/-- C6: on a single-element sequence `[v]` the encoder outputs the
one-element sequence `[concat(fwd(init, v).output, bwd(init, v).output)]`,
both directions applying their cell exactly once from the same initial
state; the reference initial state is the constant `0.1` broadcast to all
`d` state dimensions. -/
theorem C6_singleton {σ : Type} (fwd bwd : Cell σ) (fwdv bwdv : Cell Vec)
    (v : Vec) (d : Nat) :
    (∀ s : σ, BiRecurrence fwd bwd s [v] = [splice (fwd s v).2 (bwd s v).2]) ∧
    BiRecurrence fwdv bwdv (initialState d) [v] =
      [splice (fwdv (initialState d) v).2 (bwdv (initialState d) v).2] ∧
    initialState d = List.replicate d (1/10 : ℚ) :=
  ⟨fun _ => rfl, rfl, rfl⟩

-- Output-dimension lemmas.

theorem forward_scan_mem_length {σ : Type} (cell : Cell σ) (d : Nat)
    (hcell : ∀ (st : σ) (v : Vec), ((cell st v).2).length = d)
    (s : σ) (xs : List Vec) :
    ∀ y ∈ forward_scan cell s xs, y.length = d := by
  induction xs generalizing s with
  | nil => simp [forward_scan, forward_scan_aux]
  | cons x xs ih =>
    intro y hy
    simp only [forward_scan, forward_scan_aux, List.mem_cons] at hy
    rcases hy with h | h
    · subst h; exact hcell s x
    · exact ih (cell s x).1 y h

theorem backward_scan_mem_length {σ : Type} (cell : Cell σ) (d : Nat)
    (hcell : ∀ (st : σ) (v : Vec), ((cell st v).2).length = d)
    (s : σ) (xs : List Vec) :
    ∀ y ∈ backward_scan cell s xs, y.length = d := by
  intro y hy
  rw [backward_scan_eq_forward_reverse] at hy
  exact forward_scan_mem_length cell d hcell s xs.reverse y (List.mem_reverse.mp hy)

theorem zipWith_splice_mem_length (as bs : List Vec) (df db : Nat)
    (ha : ∀ a ∈ as, a.length = df) (hb : ∀ b ∈ bs, b.length = db) :
    ∀ y ∈ List.zipWith splice as bs, y.length = df + db := by
  induction as generalizing bs with
  | nil => simp
  | cons a as ih =>
    cases bs with
    | nil => simp
    | cons b bs =>
      intro y hy
      simp only [List.zipWith, List.mem_cons] at hy
      rcases hy with h | h
      · subst h
        simp [splice, ha a (by simp), hb b (by simp)]
      · exact ih bs (fun a' ha' => ha a' (List.mem_cons_of_mem a ha'))
          (fun b' hb' => hb b' (List.mem_cons_of_mem b hb')) y h

/-- C3: every output vector of the encoder has dimension
`dim(fwd.output) + dim(bwd.output)`; in the reference configuration each of
the two LSTM cells is sized `hidden_dim // 2 = 150` (for `hidden_dim = 300`)
so the concatenation has total width `hidden_dim`. -/
theorem C3_output_dimension {σ : Type} (fwd bwd : Cell σ) (s : σ) (x : List Vec)
    (df db : Nat)
    (hf : ∀ (st : σ) (v : Vec), ((fwd st v).2).length = df)
    (hb : ∀ (st : σ) (v : Vec), ((bwd st v).2).length = db) :
    (∀ y ∈ BiRecurrence fwd bwd s x, y.length = df + db) ∧
    hidden_dim / 2 = 150 ∧
    hidden_dim / 2 + hidden_dim / 2 = hidden_dim := by
  refine ⟨?_, rfl, rfl⟩
  intro y hy
  exact zipWith_splice_mem_length _ _ df db
    (forward_scan_mem_length fwd df hf s x)
    (backward_scan_mem_length bwd db hb s x) y hy

/-- Witness for C3 with two stateful cells of output width 1. -/
theorem C3_witness :
    (∀ y ∈ BiRecurrence sumCell prodCell [] [[(1 : ℚ)], [(2 : ℚ)]], y.length = 1 + 1) ∧
    hidden_dim / 2 = 150 ∧
    hidden_dim / 2 + hidden_dim / 2 = hidden_dim :=
  C3_output_dimension sumCell prodCell [] [[(1 : ℚ)], [(2 : ℚ)]] 1 1
    (fun _ _ => rfl) (fun _ _ => rfl)

-- Swapping the cell roles (C4).

/-- Swap the two halves of a vector around position `h`. -/
def swapHalvesAt (h : Nat) (v : Vec) : Vec := v.drop h ++ v.take h

theorem swapHalvesAt_splice (h : Nat) (a b : Vec) (ha : a.length = h) :
    swapHalvesAt h (splice a b) = b ++ a := by
  subst ha
  simp [swapHalvesAt, splice, List.take_left, List.drop_left]

theorem map_swapHalvesAt_zipWith_splice (h : Nat) (as bs : List Vec)
    (ha : ∀ a ∈ as, a.length = h) :
    (List.zipWith splice as bs).map (swapHalvesAt h) =
      List.zipWith (fun a b => b ++ a) as bs := by
  induction as generalizing bs with
  | nil => simp
  | cons a as ih =>
    cases bs with
    | nil => simp
    | cons b bs =>
      simp only [List.zipWith, List.map_cons]
      rw [swapHalvesAt_splice h a b (ha a (List.mem_cons_self a as))]
      rw [ih bs (fun a' ha' => ha a' (List.mem_cons_of_mem a ha'))]

theorem forward_scan_reverse_eq {σ : Type} (cell : Cell σ) (s : σ) (xs : List Vec) :
    forward_scan cell s xs.reverse = (backward_scan cell s xs).reverse := by
  rw [backward_scan_eq_forward_reverse, List.reverse_reverse]

/-- C4: swapping the roles of the forward and backward cells and swapping
the two halves of every output vector yields the original encoder run on
the reversed input with the output reversed back to original order (the
backward scan is a forward scan over the reversed sequence, re-reversed). -/
theorem C4_swap_roles_reverse {σ : Type} (fwd bwd : Cell σ) (s : σ) (x : List Vec)
    (h : Nat) (hdim : ∀ (st : σ) (v : Vec), ((bwd st v).2).length = h) :
    (BiRecurrence bwd fwd s x).map (swapHalvesAt h) =
      (BiRecurrence fwd bwd s x.reverse).reverse := by
  unfold BiRecurrence
  rw [map_swapHalvesAt_zipWith_splice h _ _ (forward_scan_mem_length bwd h hdim s x)]
  rw [backward_scan_eq_forward_reverse bwd s x.reverse, List.reverse_reverse]
  rw [forward_scan_reverse_eq fwd s x]
  rw [List.reverse_zipWith (by simp [forward_scan_length, backward_scan_length])]
  rw [List.reverse_reverse, List.reverse_reverse]
  rw [List.zipWith_comm splice]
  rfl

/-- Witness for C4 with stateful cells of output width 1 on a length-3 input. -/
theorem C4_witness :
    (BiRecurrence sumCell prodCell [] [[(1 : ℚ)], [(2 : ℚ)], [(3 : ℚ)]]).map (swapHalvesAt 1) =
      (BiRecurrence prodCell sumCell []
        ([[(1 : ℚ)], [(2 : ℚ)], [(3 : ℚ)]] : List Vec).reverse).reverse :=
  C4_swap_roles_reverse prodCell sumCell [] [[(1 : ℚ)], [(2 : ℚ)], [(3 : ℚ)]] 1
    (fun _ _ => rfl)

-- Determinism / per-sequence state lifecycle (C8).

/-- Modelled from the spec: the per-sequence lifecycle of the recurrent
state — within a session, each sequence is encoded starting from the same
initial state (reset at sequence start); the scans' final states are
discarded at sequence end and never carried into the next sequence. -/
def encode_session {σ : Type} (fwd bwd : Cell σ) (s : σ) :
    List (List Vec) → List (List Vec)
  | [] => []
  | x :: rest => BiRecurrence fwd bwd s x :: encode_session fwd bwd s rest

/-- C8: the encoder is deterministic with frozen cell parameters: two
successive evaluations of the same sequence `x` inside any session yield
identical outputs, independent of the sequences encoded before -
per-sequence recurrent state is reset at sequence start and never carried
across calls. -/
theorem C8_deterministic_no_carry {σ : Type} (fwd bwd : Cell σ) (s : σ)
    (pre : List (List Vec)) (x : List Vec) :
    (encode_session fwd bwd s (pre ++ [x, x])).drop pre.length =
      [BiRecurrence fwd bwd s x, BiRecurrence fwd bwd s x] := by
  induction pre with
  | nil => rfl
  | cons p pre ih => simpa [encode_session] using ih

-- Eager configuration validation (C7).

/-- A configuration error: an input vector's dimension does not match a
cell's expected input width. -/
inductive ConfigError : Type where
  | dimMismatch (expected actual : Nat)
deriving DecidableEq

/-- A recurrent cell together with its declared input width. -/
structure CellSpec (σ : Type) where
  inWidth : Nat
  run : Cell σ

/-- Modelled from the spec: eager shape validation — scan the input once
for a vector whose dimension differs from the expected width, reporting
expected vs. actual dimension. -/
def checkWidth (w : Nat) (x : List Vec) : Except ConfigError Unit :=
  match x.find? (fun v => decide (v.length ≠ w)) with
  | some v => Except.error (ConfigError.dimMismatch w v.length)
  | none => Except.ok ()

/-- Modelled from the spec: the encoder with eager construction-time
validation — both cells' input widths are checked against every input
vector before any scan step runs; only then is the bidirectional scan
performed.  (The notebook's `BiRecurrence` itself performs no validation;
shape checking lives in the framework's graph construction, which is not
under `src/`.) -/
def SequenceEncoderChecked {σ : Type} (fwd bwd : CellSpec σ) (s : σ) (x : List Vec) :
    Except ConfigError (List Vec) :=
  match checkWidth fwd.inWidth x with
  | Except.error e => Except.error e
  | Except.ok _ =>
    match checkWidth bwd.inWidth x with
    | Except.error e => Except.error e
    | Except.ok _ => Except.ok (BiRecurrence fwd.run bwd.run s x)

/-- C7: a dimension mismatch between some input vector and a cell's
expected input width makes the checked encoder fail with a configuration
error; the error is the same whatever the cells' transition functions and
whatever the initial state, so it is raised eagerly at construction,
before any scan step runs. -/
theorem C7_eager_config_error {σ : Type} (fwd bwd : CellSpec σ) (s : σ) (x : List Vec)
    (hmis : ∃ v ∈ x, v.length ≠ fwd.inWidth ∨ v.length ≠ bwd.inWidth) :
    ∃ e : ConfigError,
      SequenceEncoderChecked fwd bwd s x = Except.error e ∧
      ∀ (σ' : Type) (f g : Cell σ') (s' : σ'),
        SequenceEncoderChecked ⟨fwd.inWidth, f⟩ ⟨bwd.inWidth, g⟩ s' x = Except.error e := by
  rcases hfind : x.find? (fun v => decide (v.length ≠ fwd.inWidth)) with _ | v
  · have hall : ∀ v ∈ x, v.length = fwd.inWidth := by
      intro v hv
      have := List.find?_eq_none.mp hfind v hv
      simpa using this
    have hex : ∃ v ∈ x, v.length ≠ bwd.inWidth := by
      rcases hmis with ⟨v, hv, hne⟩
      rcases hne with h | h
      · exact absurd (hall v hv) h
      · exact ⟨v, hv, h⟩
    rcases hfind2 : x.find? (fun v => decide (v.length ≠ bwd.inWidth)) with _ | w
    · exfalso
      rcases hex with ⟨v, hv, hne⟩
      have := List.find?_eq_none.mp hfind2 v hv
      simp at this
      exact hne this
    · refine ⟨ConfigError.dimMismatch bwd.inWidth w.length, ?_, ?_⟩
      · simp only [SequenceEncoderChecked, checkWidth, hfind, hfind2]
      · intro σ' f g s'
        simp only [SequenceEncoderChecked, checkWidth, hfind, hfind2]
  · refine ⟨ConfigError.dimMismatch fwd.inWidth v.length, ?_, ?_⟩
    · simp only [SequenceEncoderChecked, checkWidth, hfind]
    · intro σ' f g s'
      simp only [SequenceEncoderChecked, checkWidth, hfind]

/-- Witness for C7: input `[[1]]` (dimension 1) against cells declared with
input width 2. -/
theorem C7_witness :
    ∃ e : ConfigError,
      SequenceEncoderChecked (⟨2, incCell⟩ : CellSpec Unit) ⟨2, dblCell⟩ () [[(1 : ℚ)]] =
        Except.error e ∧
      ∀ (σ' : Type) (f g : Cell σ') (s' : σ'),
        SequenceEncoderChecked ⟨2, f⟩ ⟨2, g⟩ s' [[(1 : ℚ)]] = Except.error e :=
  C7_eager_config_error ⟨2, incCell⟩ ⟨2, dblCell⟩ () [[(1 : ℚ)]]
    ⟨[(1 : ℚ)], by simp, Or.inl (by decide)⟩

-- The notebook's data-download loop (C9).

/-- The local filesystem, as a map from filename to optional contents;
`some c` means `open(filename)` succeeds with contents `c`, `none` means
opening raises `IOError`. -/
abbrev FileSystem := String → Option String

/-- Split a character list at every occurrence of `c`
(the semantics of Python's `str.split` with a one-character separator). -/
def splitOnChar (c : Char) : List Char → List (List Char)
  | [] => [[]]
  | a :: rest =>
    match splitOnChar c rest with
    | [] => [[a]]
    | g :: gs => if a = c then [] :: g :: gs else (a :: g) :: gs

/-- The filename derived from a URL in the download loop:
`t.split('/')[-1].split('?')[0]`. -/
def derive_filename (t : String) : String :=
  let last := (splitOnChar '/' t.toList).getLastD t.toList
  String.mk ((splitOnChar '?' last).headD last)

/-- One iteration of the download loop of the notebook: try to open the
derived filename; if it exists, close it and do nothing; only when opening
fails (`IOError`) call `download(t, filename)`, which writes the fetched
contents to the file.  The returned flag records whether `download` was
called. -/
def fetch_step (download : String → String) (fs : FileSystem) (t : String) :
    FileSystem × Bool :=
  match fs (derive_filename t) with
  | some _ => (fs, false)
  | none => (fun n => if n = derive_filename t then some (download t) else fs n, true)

/-- The download loop `for t in urls: ...` over the whole URL list. -/
def fetch_loop (download : String → String) (fs : FileSystem) :
    List String → FileSystem
  | [] => fs
  | t :: rest => fetch_loop download (fetch_step download fs t).1 rest

theorem fetch_step_preserves (download : String → String) (fs : FileSystem)
    (t : String) (fn c : String) (h : fs fn = some c) :
    (fetch_step download fs t).1 fn = some c := by
  unfold fetch_step
  rcases hfs : fs (derive_filename t) with _ | d
  · by_cases heq : fn = derive_filename t
    · rw [heq] at h; rw [hfs] at h; exact absurd h (by simp)
    · simp [heq, h]
  · simpa using h

theorem fetch_loop_preserves (download : String → String) (urls : List String) :
    ∀ (fs : FileSystem) (fn c : String), fs fn = some c →
      fetch_loop download fs urls fn = some c := by
  induction urls with
  | nil => intro fs fn c h; simpa [fetch_loop] using h
  | cons t rest ih =>
    intro fs fn c h
    exact ih _ fn c (fetch_step_preserves download fs t fn c h)

/-- C9: if the file with the derived filename already exists (opening it
succeeds), the loop iteration does not call `download` and leaves the
filesystem unchanged; moreover the existing contents survive the whole
loop untouched.  `download` is called, and the file written, exactly when
opening fails. -/
theorem C9_download_skips_existing (download : String → String) (fs : FileSystem)
    (t : String) (c : String) (h : fs (derive_filename t) = some c) :
    fetch_step download fs t = (fs, false) ∧
    (∀ (urls : List String) (fn cc : String), fs fn = some cc →
      fetch_loop download fs urls fn = some cc) ∧
    (∀ fs₂ : FileSystem, fs₂ (derive_filename t) = none →
      (fetch_step download fs₂ t).2 = true ∧
      (fetch_step download fs₂ t).1 (derive_filename t) = some (download t)) := by
  refine ⟨?_, ?_, ?_⟩
  · unfold fetch_step
    rw [h]
  · intro urls fn cc hcc
    exact fetch_loop_preserves download urls fs fn cc hcc
  · intro fs₂ h₂
    unfold fetch_step
    rw [h₂]
    simp

/-- Witness for C9: a filesystem already holding `atis.train.ctf` and the
notebook's training-data URL. -/
theorem C9_witness :
    (fetch_step (fun _ => "bytes")
        (fun n => if n = "atis.train.ctf" then some "data" else none)
        "https://github.com/Microsoft/CNTK/blob/master/Tutorials/SLUHandsOn/atis.train.ctf?raw=true" =
      ((fun n => if n = "atis.train.ctf" then some "data" else none), false)) ∧
    (∀ (urls : List String) (fn cc : String),
      (fun n => if n = "atis.train.ctf" then some "data" else none : FileSystem) fn = some cc →
      fetch_loop (fun _ => "bytes")
        (fun n => if n = "atis.train.ctf" then some "data" else none) urls fn = some cc) ∧
    (∀ fs₂ : FileSystem,
      fs₂ (derive_filename
        "https://github.com/Microsoft/CNTK/blob/master/Tutorials/SLUHandsOn/atis.train.ctf?raw=true") = none →
      (fetch_step (fun _ => "bytes") fs₂
        "https://github.com/Microsoft/CNTK/blob/master/Tutorials/SLUHandsOn/atis.train.ctf?raw=true").2 = true ∧
      (fetch_step (fun _ => "bytes") fs₂
        "https://github.com/Microsoft/CNTK/blob/master/Tutorials/SLUHandsOn/atis.train.ctf?raw=true").1
        (derive_filename
          "https://github.com/Microsoft/CNTK/blob/master/Tutorials/SLUHandsOn/atis.train.ctf?raw=true") =
        some "bytes") :=
  C9_download_skips_existing (fun _ => "bytes")
    (fun n => if n = "atis.train.ctf" then some "data" else none)
    "https://github.com/Microsoft/CNTK/blob/master/Tutorials/SLUHandsOn/atis.train.ctf?raw=true"
    "data" (by decide)

-- The evaluation loop and reader configuration (C10).

/-- The `epoch_size` argument of `MinibatchSource`. -/
inductive EpochSize : Type where
  | infinitelyRepeat
  | fullDataSweep
deriving DecidableEq

/-- Embedding of `create_reader(path, is_training)`: the source is built
with `randomize=is_training` and
`epoch_size = INFINITELY_REPEAT if is_training else FULL_DATA_SWEEP`.
We record the two configuration values `(epoch_size, randomize)`. -/
def create_reader (is_training : Bool) : EpochSize × Bool :=
  ((if is_training then EpochSize.infinitelyRepeat else EpochSize.fullDataSweep),
   is_training)

/-- Modelled from the spec: a `FULL_DATA_SWEEP`, non-randomized minibatch
source delivers the file's samples in order and `next_minibatch` returns
empty data once the single pass is exhausted.  `eval_loop` is the
notebook's `while True: data = reader.next_minibatch(...); if not data:
break` loop of `evaluate`, returning the list of minibatches processed.
(`mb = 0` is guarded to keep the function total; `evaluate` uses
`minibatch_size = 1000`.) -/
def eval_loop {α : Type} (mb : Nat) (data : List α) : List (List α) :=
  if h : data.isEmpty || mb == 0 then []
  else data.take mb :: eval_loop mb (data.drop mb)
termination_by data.length
decreasing_by
  simp only [Bool.or_eq_true, List.isEmpty_iff, beq_iff_eq] at h
  push_neg at h
  have h1 : 0 < data.length := List.length_pos.mpr h.1
  have h2 : 0 < mb := Nat.pos_of_ne_zero h.2
  simp only [List.length_drop]
  omega

/-- Modelled from the spec: with `INFINITELY_REPEAT` the source restarts
the file once the remaining samples are exhausted; `next_minibatch` then
returns the next `mb` samples and the new remainder. -/
def next_minibatch_repeat {α : Type} (file : List α) (mb : Nat)
    (remaining : List α) : List α × List α :=
  let rem := if remaining.isEmpty then file else remaining
  (rem.take mb, rem.drop mb)

/-- The remaining samples of the infinitely-repeating source after `k`
calls to `next_minibatch`. -/
def repeat_reader_remaining {α : Type} (file : List α) (mb : Nat) : Nat → List α
  | 0 => file
  | k + 1 =>
    (next_minibatch_repeat file mb (repeat_reader_remaining file mb k)).2

theorem eval_loop_flatten {α : Type} (mb : Nat) (hmb : 0 < mb) :
    ∀ data : List α, (eval_loop mb data).flatten = data := by
  have key : ∀ (n : Nat) (data : List α), data.length ≤ n →
      (eval_loop mb data).flatten = data := by
    intro n
    induction n with
    | zero =>
      intro data hlen
      have hnil : data = [] := List.length_eq_zero.mp (Nat.le_zero.mp hlen)
      subst hnil
      unfold eval_loop
      simp
    | succ n ih =>
      intro data hlen
      unfold eval_loop
      by_cases hd : data.isEmpty || mb == 0
      · rw [dif_pos hd]
        simp only [Bool.or_eq_true, List.isEmpty_iff, beq_iff_eq] at hd
        rcases hd with hd | hd
        · simp [hd]
        · omega
      · rw [dif_neg hd]
        rw [List.flatten_cons]
        rw [ih (data.drop mb) (by simp [List.length_drop]; omega)]
        exact List.take_append_drop mb data
  intro data
  exact key data.length data le_rfl

/-- C10: the unconditional `while True` loop of `evaluate` terminates on
every finite test file because `create_reader(..., is_training=False)`
configures `epoch_size = FULL_DATA_SWEEP` and `randomize = False`: the loop
(`eval_loop`, a total function) makes exactly one pass over the file — the
minibatches it processes concatenate back to the file — and then
`next_minibatch` returns empty data and the loop breaks.  With
`is_training=True` the source is configured `INFINITELY_REPEAT` and the
same loop never sees empty data on a nonempty file, so it would never
terminate. -/
theorem C10_evaluate_terminates {α : Type} (file : List α) (mb : Nat) (hmb : 0 < mb) :
    create_reader false = (EpochSize.fullDataSweep, false) ∧
    (eval_loop mb file).flatten = file ∧
    create_reader true = (EpochSize.infinitelyRepeat, true) ∧
    (file ≠ [] → ∀ k : Nat,
      (next_minibatch_repeat file mb (repeat_reader_remaining file mb k)).1 ≠ []) := by
  refine ⟨rfl, eval_loop_flatten mb hmb file, rfl, ?_⟩
  intro hfile k
  unfold next_minibatch_repeat
  intro hcontra
  rcases htake : (if (repeat_reader_remaining file mb k).isEmpty then file
      else repeat_reader_remaining file mb k) with _ | ⟨a, l⟩
  · by_cases hrem : (repeat_reader_remaining file mb k).isEmpty
    · rw [if_pos hrem] at htake; exact hfile htake
    · rw [if_neg hrem] at htake
      exact hrem (by simp [htake])
  · rw [htake] at hcontra
    simp only [List.take_eq_nil_iff] at hcontra
    rcases hcontra with h | h
    · omega
    · exact absurd h (by simp)

/-- Witness for C10 on the file `[1, 2, 3]` with minibatch size 2. -/
theorem C10_witness :
    create_reader false = (EpochSize.fullDataSweep, false) ∧
    (eval_loop 2 [1, 2, 3]).flatten = [1, 2, 3] ∧
    create_reader true = (EpochSize.infinitelyRepeat, true) ∧
    (([1, 2, 3] : List Nat) ≠ [] → ∀ k : Nat,
      (next_minibatch_repeat [1, 2, 3] 2 (repeat_reader_remaining [1, 2, 3] 2 k)).1 ≠ []) :=
  C10_evaluate_terminates [1, 2, 3] 2 (by decide)
